import Mathlib

/-!
A verification development for the risinglight query-optimization core.

The Rust sources are shallowly embedded:
* `src/src/planner/mod.rs`   — the `Expr` plan language and `Optimizer::optimize`;
* `src/src/planner/cost.rs`  — the cost function `CostFn`;
* `src/src/binder/create_table.rs` and `src/src/catalog/column.rs` — the
  binder's `bind_create_table` and the column catalog.

`f32` arithmetic is modelled by exact rational arithmetic (`ℚ`); `f32::log2`
is modelled by an abstract function `log2 : ℚ → ℚ` carried in the context,
about which theorems assume only the properties of the real `log2` they need
(non-negativity and monotonicity on `[1, ∞)`).
-/

namespace RisingLight

/-- egg's `Id`: an index of an equivalence class. -/
abbrev Id := Nat

/-- `ColumnId` from the catalog (`u32` in Rust). -/
abbrev ColumnId := Nat

/-- `crate::catalog::ColumnRefId`: a fully resolved column reference. -/
structure ColumnRefId where
  schema_id : Nat
  table_id : Nat
  column_id : Nat
deriving DecidableEq, Repr

/-- `crate::catalog::TableRefId`. -/
abbrev TableRefId := Nat

/-- `crate::types::ColumnIndex` (`#0`, `#1`, ...). -/
abbrev ColumnIdx := Nat

/-- `crate::types::DataValue` (module `types` is outside `src/`; only the
constructor tag matters to the embedded functions). -/
inductive DataValue
  | Null
  | Bool (b : Bool)
  | Int32 (i : Int)
  | Str (s : String)
deriving DecidableEq, Repr

/-- `crate::types::DataTypeKind` (tag only). -/
inductive DataTypeKind
  | Bool
  | Int32
  | Int64
  | Float64
  | Str
  | Date
  | Null
deriving DecidableEq, Repr

/-- `crate::types::DataType`: a kind together with nullability. -/
structure DataType where
  kind : DataTypeKind
  nullable : Bool
deriving DecidableEq, Repr

/-- `crate::types::DateTimeField` (tag only). -/
inductive DateTimeField
  | Year
  | Month
  | Day
deriving DecidableEq, Repr

/-- `crate::binder::copy::ExtSource` (module outside `src/`; payload only). -/
structure ExtSource where
  path : String
deriving DecidableEq, Repr

/-- `crate::binder::BoundDrop` (module outside `src/`; payload only). -/
structure BoundDrop where
  object : TableRefId
deriving DecidableEq, Repr

/-- A descriptor of a column (`src/src/catalog/column.rs`, `ColumnDesc`). -/
structure ColumnDesc where
  datatype : DataType
  name : String
  is_primary : Bool
  is_required : Bool
deriving DecidableEq, Repr

/-- The catalog of a column (`src/src/catalog/column.rs`, `ColumnCatalog`). -/
structure ColumnCatalog where
  id : ColumnId
  desc : ColumnDesc
deriving DecidableEq, Repr

def ColumnCatalog.set_id (c : ColumnCatalog) (id : ColumnId) : ColumnCatalog :=
  { c with id := id }

def ColumnCatalog.set_primary (c : ColumnCatalog) (b : Bool) : ColumnCatalog :=
  { c with desc := { c.desc with is_primary := b } }

def ColumnCatalog.set_nullable (c : ColumnCatalog) (b : Bool) : ColumnCatalog :=
  { c with desc := { c.desc with datatype := { c.desc.datatype with nullable := b } } }

def ColumnCatalog.is_primary (c : ColumnCatalog) : Bool :=
  c.desc.is_primary

def ColumnCatalog.is_nullable (c : ColumnCatalog) : Bool :=
  c.desc.datatype.nullable

def ColumnCatalog.is_required (c : ColumnCatalog) : Bool :=
  c.desc.is_required

/-- `CreateTable` from `src/src/binder/create_table.rs`. -/
structure CreateTable where
  schema_id : Nat
  table_name : String
  columns : List ColumnCatalog
  ordered_pk_ids : List ColumnId
deriving DecidableEq, Repr

/-- Lists of class ids (`Box<[Id]>` payloads of the Rust language). -/
abbrev Ids := List Id

/-- The plan/expression language of `define_language!` in
`src/src/planner/mod.rs`.  Fixed-arity `[Id; n]` payloads become `n`
separate `Id` arguments; `Box<[Id]>` becomes `Ids`. -/
inductive Expr
  -- values
  | Constant (v : DataValue)
  | Type (t : DataTypeKind)
  | Column (c : ColumnRefId)
  | Table (t : TableRefId)
  | ColumnIndex (i : ColumnIdx)
  | ExtSource (s : ExtSource)
  -- utilities
  | Ref (e : Id)
  | List (l : Ids)
  -- binary operations
  | Add (l r : Id)
  | Sub (l r : Id)
  | Mul (l r : Id)
  | Div (l r : Id)
  | Mod (l r : Id)
  | StringConcat (l r : Id)
  | Gt (l r : Id)
  | Lt (l r : Id)
  | GtEq (l r : Id)
  | LtEq (l r : Id)
  | Eq (l r : Id)
  | NotEq (l r : Id)
  | And (l r : Id)
  | Or (l r : Id)
  | Xor (l r : Id)
  | Like (l r : Id)
  -- unary operations
  | Neg (a : Id)
  | Not (a : Id)
  | IsNull (a : Id)
  | If (cond then_ else_ : Id)
  -- functions
  | Extract (field e : Id)
  | Field (f : DateTimeField)
  | Replace (e pat rep : Id)
  | Substring (e start len : Id)
  -- aggregations
  | Max (a : Id)
  | Min (a : Id)
  | Sum (a : Id)
  | Avg (a : Id)
  | Count (a : Id)
  | RowCount
  | First (a : Id)
  | Last (a : Id)
  -- window functions
  | Over (f partition order : Id)
  | RowNumber
  -- subquery related
  | Exists (a : Id)
  | In (l r : Id)
  | Cast (ty e : Id)
  -- plans
  | Scan (table columns filter : Id)
  | Internal (table columns : Id)
  | Values (l : Ids)
  | Proj (exprs child : Id)
  | Filter (cond child : Id)
  | Order (keys child : Id)
  | Desc (k : Id)
  | Limit (limit offset child : Id)
  | TopN (limit offset keys child : Id)
  | Join (ty cond l r : Id)
  | HashJoin (ty lkeys rkeys l r : Id)
  | MergeJoin (ty lkeys rkeys l r : Id)
  | Inner
  | LeftOuter
  | RightOuter
  | FullOuter
  | Agg (aggs child : Id)
  | HashAgg (aggs group_keys child : Id)
  | SortAgg (aggs group_keys child : Id)
  | Window (exprs child : Id)
  | CreateTable (t : CreateTable)
  | Drop (d : BoundDrop)
  | Insert (table columns child : Id)
  | Delete (table child : Id)
  | CopyFrom (dest types : Id)
  | CopyTo (dest child : Id)
  | Explain (child : Id)
  | Empty (l : Ids)
  | Symbol (s : String)

/-- The children of a node, in order (egg's `Language::children`, over which
`Language::fold` folds in the default cost arm). -/
def Expr.childIds : Expr → Ids
  | .Constant _ | .Type _ | .Column _ | .Table _ | .ColumnIndex _ | .ExtSource _ => []
  | .Ref e => [e]
  | .List l => l
  | .Add l r | .Sub l r | .Mul l r | .Div l r | .Mod l r | .StringConcat l r
  | .Gt l r | .Lt l r | .GtEq l r | .LtEq l r | .Eq l r | .NotEq l r
  | .And l r | .Or l r | .Xor l r | .Like l r => [l, r]
  | .Neg a | .Not a | .IsNull a => [a]
  | .If a b c => [a, b, c]
  | .Extract a b => [a, b]
  | .Field _ => []
  | .Replace a b c | .Substring a b c => [a, b, c]
  | .Max a | .Min a | .Sum a | .Avg a | .Count a | .First a | .Last a => [a]
  | .RowCount | .RowNumber => []
  | .Over a b c => [a, b, c]
  | .Exists a => [a]
  | .In a b | .Cast a b => [a, b]
  | .Scan a b c => [a, b, c]
  | .Internal a b => [a, b]
  | .Values l => l
  | .Proj a b | .Filter a b | .Order a b => [a, b]
  | .Desc a => [a]
  | .Limit a b c => [a, b, c]
  | .TopN a b c d => [a, b, c, d]
  | .Join a b c d => [a, b, c, d]
  | .HashJoin a b c d e | .MergeJoin a b c d e => [a, b, c, d, e]
  | .Inner | .LeftOuter | .RightOuter | .FullOuter => []
  | .Agg a b => [a, b]
  | .HashAgg a b c | .SortAgg a b c => [a, b, c]
  | .Window a b => [a, b]
  | .CreateTable _ | .Drop _ => []
  | .Insert a b c => [a, b, c]
  | .Delete a b => [a, b]
  | .CopyFrom a b | .CopyTo a b => [a, b]
  | .Explain a => [a]
  | .Empty l => l
  | .Symbol _ => []

/-- The read-only context of `CostFn` in `src/src/planner/cost.rs`: a view of
the e-graph (`classNodes i` is `egraph[i].nodes`, `rows i` is
`egraph[i].data.rows`, `schemaLen i` is `egraph[i].data.schema.len()`,
`lookup` is `egraph.lookup(..).unwrap()`), the catalog (`required c` is
`catalog.get_column(c).unwrap().is_required()`), and the model of
`f32::log2`. -/
structure CostFn where
  classNodes : Id → List Expr
  rows : Id → ℚ
  schemaLen : Id → Nat
  lookup : Expr → Id
  required : ColumnRefId → Bool
  log2 : ℚ → ℚ

/-- `CostFn::column_is_required`. -/
def CostFn.column_is_required (f : CostFn) (index : ColumnRefId) : Bool :=
  f.required index

/-- `CostFn::is_constant`.  The Rust function recurses through
`egraph[id].nodes[0]` with no structural bound, so the embedding adds a
`fuel` argument; every theorem quantifies over (or instantiates) the fuel.
An empty class (on which Rust's `nodes[0]` would panic, an invariant
violation) yields `false`. -/
def CostFn.is_constant (f : CostFn) : Nat → Id → Bool
  | 0, _ => false
  | fuel + 1, id =>
    match (f.classNodes id).head? with
    | none => false
    | some node =>
      match node with
      | .Constant _ | .Type _ => true
      | .Neg a | .Not a | .IsNull a => f.is_constant fuel a
      | .Sub lhs rhs | .Add lhs rhs | .Mul lhs rhs | .Div lhs rhs
      | .Mod lhs rhs | .StringConcat lhs rhs | .Gt lhs rhs | .Lt lhs rhs
      | .GtEq lhs rhs | .LtEq lhs rhs | .Eq lhs rhs | .NotEq lhs rhs
      | .And lhs rhs | .Or lhs rhs | .Xor lhs rhs | .Like lhs rhs
      | .Extract lhs rhs | .Cast lhs rhs =>
        f.is_constant fuel lhs && f.is_constant fuel rhs
      | .Replace e a b | .Substring e a b =>
        f.is_constant fuel e && f.is_constant fuel a && f.is_constant fuel b
      | _ => false

/-- `CostFn::cond_check`.  (The Rust function also prints the factor; the
side effect is irrelevant to the returned value.  Note that in the source the
multiplication by `out()` is commented out: the bare factor is returned.) -/
def CostFn.cond_check (f : CostFn) (fuel : Nat) (lhs rhs : Id) (_out : ℚ) : ℚ :=
  let factor : ℚ :=
    match (f.classNodes lhs).head? with
    | some (.Column idx) =>
      if f.column_is_required idx && f.is_constant fuel rhs then 1 else 100000
    | _ => 100000
  match (f.classNodes rhs).head? with
  | some (.Column _) => 100000
  | _ => factor

/-- `CostFn::condition_out`. -/
def CostFn.condition_out (f : CostFn) (fuel : Nat) (_table filter : Id) (out : ℚ) : ℚ :=
  match (f.classNodes filter).head? with
  | none => 100000 * out
  | some node =>
    match node with
    | .Eq lhs rhs => f.cond_check fuel lhs rhs out
    | _ => 100000 * out

/-- Left fold of `costs` over a child list, starting from `init`
(egg's `Language::fold` as used in the default cost arm). -/
def foldCosts (costs : Id → ℚ) (init : ℚ) (l : Ids) : ℚ :=
  l.foldl (fun sum id => sum + costs id) init

/-- `<CostFn as egg::CostFunction<Expr>>::cost` from `src/src/planner/cost.rs`. -/
def CostFn.cost (f : CostFn) (fuel : Nat) (enode : Expr) (costs : Id → ℚ) : ℚ :=
  let id := f.lookup enode
  let rows := fun i => f.rows i
  let cols := fun i => (f.schemaLen i : ℚ)
  let nlogn := fun x => x * f.log2 (x + 1)
  -- The cost of output chunks of a plan.
  let out := rows id * cols id
  match enode with
  | .Scan table _ filter => f.condition_out fuel table filter out
  | .Values _ => out
  | .Order _ c => nlogn (rows c) + out + costs c
  | .Filter exprs c => costs exprs * rows c + out + costs c
  | .Proj exprs c | .Window exprs c => costs exprs * rows c + costs c
  | .Agg exprs c => costs exprs * rows c + out + costs c
  | .HashAgg exprs groupby c =>
    (f.log2 (rows id + 1) + costs exprs + costs groupby) * rows c + out + costs c
  | .SortAgg exprs groupby c => (costs exprs + costs groupby) * rows c + out + costs c
  | .Limit _ _ c => out + costs c
  | .TopN _ _ _ c => f.log2 (rows id + 1) * rows c + out + costs c
  | .Join _ cnd l r => costs cnd * rows l * rows r + out + costs l + costs r
  | .HashJoin _ _ _ l r =>
    f.log2 (rows l + 1) * (rows l + rows r) + out + costs l + costs r
  | .MergeJoin _ _ _ l r => out + costs l + costs r
  | .Insert _ _ c | .CopyTo _ c => rows c * cols c + costs c
  | .Empty _ => 0
  -- for expressions, the cost is 0.1x AST size
  | .Column _ | .Ref _ => 1 / 100
  | e => foldCosts costs (1 / 10) e.childIds


/-! ### Helper lemmas about the cost function -/

lemma is_constant_head_ne_column (f : CostFn) (fuel : Nat) (r : Id)
    (h : f.is_constant fuel r = true) (c : ColumnRefId) :
    (f.classNodes r).head? ≠ some (.Column c) := by
  intro hc
  cases fuel with
  | zero => simp [CostFn.is_constant] at h
  | succ n =>
    rw [CostFn.is_constant, hc] at h
    simp at h

lemma cond_check_cases (f : CostFn) (fuel : Nat) (l r : Id) (o : ℚ) :
    f.cond_check fuel l r o = 1 ∨ f.cond_check fuel l r o = 100000 := by
  rw [CostFn.cond_check]
  split
  · right; rfl
  · split
    · split
      · left; rfl
      · right; rfl
    · right; rfl

lemma condition_out_nonneg (f : CostFn) (fuel : Nat) (t fl : Id) (o : ℚ)
    (ho : 0 ≤ o) : 0 ≤ f.condition_out fuel t fl o := by
  rw [CostFn.condition_out]
  split
  · positivity
  · split
    · rcases cond_check_cases f fuel _ _ o with h | h <;> rw [h] <;> norm_num
    · positivity

lemma foldCosts_nonneg (costs : Id → ℚ) (hc : ∀ i, 0 ≤ costs i) :
    ∀ (l : Ids) (init : ℚ), 0 ≤ init → 0 ≤ foldCosts costs init l := by
  intro l
  induction l with
  | nil => intro init h; exact h
  | cons a as ih =>
    intro init h
    exact ih (init + costs a) (by have := hc a; linarith)

/-- The output-chunk cost `out()` that `CostFn::cost` computes for a node:
rows times columns of the node's own class. -/
def CostFn.outOf (f : CostFn) (enode : Expr) : ℚ :=
  f.rows (f.lookup enode) * (f.schemaLen (f.lookup enode) : ℚ)

/-- C2: the cost of a `Scan` node as a function of its attached filter. -/
theorem scan_cost_characterization
    (f : CostFn) (fuel : Nat) (t cl fl : Id) (costs : Id → ℚ) :
    ((f.classNodes fl).head? = none →
      f.cost fuel (.Scan t cl fl) costs = 100000 * f.outOf (.Scan t cl fl))
    ∧ (∀ l r c, (f.classNodes fl).head? = some (.Eq l r) →
        (f.classNodes l).head? = some (.Column c) →
        f.required c = true → f.is_constant fuel r = true →
        f.cost fuel (.Scan t cl fl) costs = 1)
    ∧ (∀ l r c, (f.classNodes fl).head? = some (.Eq l r) →
        (f.classNodes r).head? = some (.Column c) →
        f.cost fuel (.Scan t cl fl) costs = 100000)
    ∧ (∀ n, (f.classNodes fl).head? = some n → (∀ l r, n ≠ .Eq l r) →
        f.cost fuel (.Scan t cl fl) costs = 100000 * f.outOf (.Scan t cl fl)) := by
  have hcost : f.cost fuel (.Scan t cl fl) costs
      = f.condition_out fuel t fl (f.outOf (.Scan t cl fl)) := rfl
  refine ⟨?_, ?_, ?_, ?_⟩
  · intro h
    rw [hcost, CostFn.condition_out, h]
  · intro l r c hfl hl hreq hconst
    rw [hcost, CostFn.condition_out, hfl]
    show f.cond_check fuel l r _ = 1
    rw [CostFn.cond_check, hl]
    simp only [CostFn.column_is_required, hreq, hconst, Bool.and_self, if_true]
    have hne := is_constant_head_ne_column f fuel r hconst
    rcases hr : (f.classNodes r).head? with _ | n
    · rfl
    · cases n <;> first | rfl | exact absurd hr (hne _)
  · intro l r c hfl hr
    rw [hcost, CostFn.condition_out, hfl]
    show f.cond_check fuel l r _ = 100000
    rw [CostFn.cond_check, hr]
  · intro n hfl hne
    rw [hcost, CostFn.condition_out, hfl]
    cases n <;> first | rfl | exact absurd rfl (hne _ _)

/-- A small concrete e-graph/catalog context used to instantiate the
cost-function theorems:
class 0 = a catalog-required column, class 1 = the constant 5,
class 2 = the predicate `col = 5`, class 3 = the predicate `5 = col`,
class 4 = a non-equality filter, class 5 = an empty class. -/
def scanCtx : CostFn where
  classNodes := fun i =>
    if i = 0 then [.Column ⟨0, 0, 0⟩]
    else if i = 1 then [.Constant (.Int32 5)]
    else if i = 2 then [.Eq 0 1]
    else if i = 3 then [.Eq 1 0]
    else if i = 4 then [.Constant (.Bool true)]
    else []
  rows := fun i => if i = 9 then 10 else 5
  schemaLen := fun _ => 2
  lookup := fun _ => 9
  required := fun _ => true
  log2 := fun _ => 0

theorem scan_cost_characterization_witness :
    CostFn.cost scanCtx 1 (.Scan 7 8 2) (fun _ => 0) = 1
    ∧ CostFn.cost scanCtx 1 (.Scan 7 8 3) (fun _ => 0) = 100000
    ∧ CostFn.cost scanCtx 1 (.Scan 7 8 5) (fun _ => 0)
        = 100000 * CostFn.outOf scanCtx (.Scan 7 8 5)
    ∧ CostFn.cost scanCtx 1 (.Scan 7 8 4) (fun _ => 0)
        = 100000 * CostFn.outOf scanCtx (.Scan 7 8 4) :=
  ⟨(scan_cost_characterization scanCtx 1 7 8 2 (fun _ => 0)).2.1 0 1 ⟨0, 0, 0⟩
      rfl rfl rfl rfl,
   (scan_cost_characterization scanCtx 1 7 8 3 (fun _ => 0)).2.2.1 1 0 ⟨0, 0, 0⟩
      rfl rfl,
   (scan_cost_characterization scanCtx 1 7 8 5 (fun _ => 0)).1 rfl,
   (scan_cost_characterization scanCtx 1 7 8 4 (fun _ => 0)).2.2.2
      (.Constant (.Bool true)) rfl (fun _ _ h => by cases h)⟩

/-- C3 (amended): the costs of `Filter`, `Proj`, `Window` and `Agg`.
`Filter` and `Agg` include the node's own output cost; `Proj` and `Window`
omit it. -/
theorem filter_proj_window_agg_cost
    (f : CostFn) (fuel : Nat) (exprs c : Id) (costs : Id → ℚ) :
    f.cost fuel (.Filter exprs c) costs
      = costs exprs * f.rows c + f.outOf (.Filter exprs c) + costs c
    ∧ f.cost fuel (.Agg exprs c) costs
      = costs exprs * f.rows c + f.outOf (.Agg exprs c) + costs c
    ∧ f.cost fuel (.Proj exprs c) costs = costs exprs * f.rows c + costs c
    ∧ f.cost fuel (.Window exprs c) costs = costs exprs * f.rows c + costs c :=
  ⟨rfl, rfl, rfl, rfl⟩

/-- C3's claimed formula fails on a `Proj` node: with the output cost
`out() = 10` and all child costs zero, the code computes `0`, not `10`. -/
theorem proj_cost_claim_counterexample :
    CostFn.cost scanCtx 1 (.Proj 0 1) (fun _ => 0)
      ≠ (fun _ : Id => (0 : ℚ)) 0 * scanCtx.rows 1
        + CostFn.outOf scanCtx (.Proj 0 1) + (fun _ : Id => (0 : ℚ)) 1 := by
  simp only [CostFn.cost, CostFn.outOf, scanCtx]
  norm_num

/-- C7 (amended): `Limit` costs its output cost plus the child's cost (no
extra processing term); `TopN` additionally includes the log-scaled
partial-sort term `log2(rows+1) * child_rows`. -/
theorem limit_topn_cost
    (f : CostFn) (fuel : Nat) (a b k c : Id) (costs : Id → ℚ) :
    f.cost fuel (.Limit a b c) costs = f.outOf (.Limit a b c) + costs c
    ∧ f.cost fuel (.TopN a b k c) costs
      = f.log2 (f.rows (f.lookup (.TopN a b k c)) + 1) * f.rows c
        + f.outOf (.TopN a b k c) + costs c :=
  ⟨rfl, rfl⟩

/-- C7's claimed formula fails on a `Limit` node: with a child of cost `5`
and `out() = 10`, the code computes `15`, not the output cost `10` alone. -/
theorem limit_cost_claim_counterexample :
    CostFn.cost scanCtx 1 (.Limit 0 1 3) (fun i => if i = 3 then 5 else 0)
      ≠ CostFn.outOf scanCtx (.Limit 0 1 3) := by
  simp only [CostFn.cost, CostFn.outOf, scanCtx]
  norm_num

/-- C4: under non-negative row estimates, non-negative child costs, and a
`log2` that is non-negative on `[1, ∞)` (as `f32::log2` is), every value
computed by `CostFn::cost` is non-negative.  The source contains no division,
so a zero-row class cannot cause a division by zero; in this exact-rational
model of `f32` arithmetic every value is finite and there is no NaN. -/
theorem cost_nonneg (f : CostFn) (fuel : Nat) (enode : Expr) (costs : Id → ℚ)
    (hr : ∀ i, 0 ≤ f.rows i) (hc : ∀ i, 0 ≤ costs i)
    (hl : ∀ x : ℚ, 1 ≤ x → 0 ≤ f.log2 x) :
    0 ≤ f.cost fuel enode costs := by
  have hcol : ∀ i : Id, (0 : ℚ) ≤ (f.schemaLen i : ℚ) := fun i => Nat.cast_nonneg _
  have hout : ∀ i : Id, (0 : ℚ) ≤ f.rows i * (f.schemaLen i : ℚ) :=
    fun i => mul_nonneg (hr i) (hcol i)
  have hlog : ∀ i : Id, (0 : ℚ) ≤ f.log2 (f.rows i + 1) :=
    fun i => hl _ (by linarith [hr i])
  have hfold : ∀ l (init : ℚ), 0 ≤ init → 0 ≤ foldCosts costs init l :=
    foldCosts_nonneg costs hc
  have htenth : (0 : ℚ) ≤ 1 / 10 := by norm_num
  have hcent : (0 : ℚ) ≤ 1 / 100 := by norm_num
  cases enode
  case Scan t c fl => exact condition_out_nonneg f fuel t fl _ (hout _)
  case Values l => exact hout _
  case Order k c => exact add_nonneg (add_nonneg (mul_nonneg (hr c) (hlog c)) (hout _)) (hc c)
  case Filter e c => exact add_nonneg (add_nonneg (mul_nonneg (hc e) (hr c)) (hout _)) (hc c)
  case Proj e c => exact add_nonneg (mul_nonneg (hc e) (hr c)) (hc c)
  case Window e c => exact add_nonneg (mul_nonneg (hc e) (hr c)) (hc c)
  case Agg e c => exact add_nonneg (add_nonneg (mul_nonneg (hc e) (hr c)) (hout _)) (hc c)
  case HashAgg e g c =>
    exact add_nonneg (add_nonneg
      (mul_nonneg (add_nonneg (add_nonneg (hlog _) (hc e)) (hc g)) (hr c)) (hout _)) (hc c)
  case SortAgg e g c =>
    exact add_nonneg (add_nonneg
      (mul_nonneg (add_nonneg (hc e) (hc g)) (hr c)) (hout _)) (hc c)
  case Limit a b c => exact add_nonneg (hout _) (hc c)
  case TopN a b k c =>
    exact add_nonneg (add_nonneg (mul_nonneg (hlog _) (hr c)) (hout _)) (hc c)
  case Join t o l r =>
    exact add_nonneg (add_nonneg (add_nonneg
      (mul_nonneg (mul_nonneg (hc o) (hr l)) (hr r)) (hout _)) (hc l)) (hc r)
  case HashJoin t lk rk l r =>
    exact add_nonneg (add_nonneg (add_nonneg
      (mul_nonneg (hlog l) (add_nonneg (hr l) (hr r))) (hout _)) (hc l)) (hc r)
  case MergeJoin t lk rk l r =>
    exact add_nonneg (add_nonneg (hout _) (hc l)) (hc r)
  case Insert t c ch => exact add_nonneg (mul_nonneg (hr ch) (hcol ch)) (hc ch)
  case CopyTo d ch => exact add_nonneg (mul_nonneg (hr ch) (hcol ch)) (hc ch)
  case Empty l => exact le_refl 0
  case Column c => exact hcent
  case Ref e => exact hcent
  all_goals exact hfold _ (1 / 10) htenth

theorem cost_nonneg_witness :
    0 ≤ CostFn.cost scanCtx 1 (.Order 0 1) (fun _ => 0) :=
  cost_nonneg scanCtx 1 (.Order 0 1) (fun _ => 0)
    (fun i => by simp only [scanCtx]; split <;> norm_num)
    (fun _ => le_refl 0)
    (fun x _ => le_refl 0)

/-! ### C5: cost monotonicity on linear, join-free pipelines -/

/-- The shape of a `Scan` leaf's attached filter, determining the leaf's cost
per `CostFn::condition_out`: `eqRequiredConst` — an equality between a
required column and a provable constant (bare factor `1`); `eqOtherwise` —
any other equality predicate (bare factor `100000`); `plain` — no filter or a
non-equality filter (`100000 * out()`, so `100000 * rows * cols`). -/
inductive ScanLeaf
  | eqRequiredConst
  | eqOtherwise
  | plain (cols : Nat)

/-- The `Scan` arm of `CostFn::cost` as a function of the leaf's row
estimate `r` (the base table row count reported by the analysis). -/
def ScanLeaf.cost (s : ScanLeaf) (r : ℚ) : ℚ :=
  match s with
  | .eqRequiredConst => 1
  | .eqOtherwise => 100000
  | .plain cols => 100000 * (r * cols)

/-- One relational operator of a linear, join-free pipeline, carrying the
row-independent constants its arm of `CostFn::cost` reads: the cost of its
expression list and the width of its output schema; `limit`/`topn` also
carry the statically known limit, which is their row estimate. -/
inductive PipeNode
  | filter (exprCost : ℚ) (cols : Nat)
  | proj (exprCost : ℚ) (cols : Nat)
  | window (exprCost : ℚ) (cols : Nat)
  | agg (exprCost : ℚ) (cols : Nat)
  | order (cols : Nat)
  | limit (limitRows : ℚ) (cols : Nat)
  | topn (limitRows : ℚ) (cols : Nat)

/-- Modelled from the spec: the per-operator row-count estimates of the
analysis (`ExprAnalysis`, whose source is not under `src/`), spec §4.2:
Scan reports the catalog's base row count, Filter/Proj/Window/Agg/Order
inherit the child's count unchanged, Limit/TopN use the statically known
limit.  `rowsUnder r ns` is the row estimate of the plan made of the
operators `ns` (outermost first) over a scan leaf with estimate `r`. -/
def rowsUnder (r : ℚ) : List PipeNode → ℚ
  | [] => r
  | n :: rest =>
    match n with
    | .filter _ _ | .proj _ _ | .window _ _ | .agg _ _ | .order _ => rowsUnder r rest
    | .limit l _ | .topn l _ => l

/-- The total cost of the linear pipeline `ns` (outermost operator first)
over scan leaf `s` with row estimate `r`: each arm transcribes the
corresponding arm of `CostFn::cost` (`out()` of an operator is its own row
estimate times its column count; `log2` models `f32::log2`). -/
def pipeCost (log2 : ℚ → ℚ) (s : ScanLeaf) (r : ℚ) : List PipeNode → ℚ
  | [] => s.cost r
  | n :: rest =>
    let rc := rowsUnder r rest
    let cc := pipeCost log2 s r rest
    match n with
    | .filter e cols => e * rc + rc * cols + cc
    | .proj e _ => e * rc + cc
    | .window e _ => e * rc + cc
    | .agg e cols => e * rc + rc * cols + cc
    | .order cols => rc * log2 (rc + 1) + rc * cols + cc
    | .limit l cols => l * cols + cc
    | .topn l cols => log2 (l + 1) * rc + l * cols + cc

/-- Well-formedness of a pipeline operator: expression-list costs are
non-negative (in the source they are sums of the positive per-node
constants `0.1`/`0.01`) and limits are non-negative. -/
def PipeNode.wf : PipeNode → Prop
  | .filter e _ | .proj e _ | .window e _ | .agg e _ => 0 ≤ e
  | .order _ => True
  | .limit l _ | .topn l _ => 0 ≤ l

lemma rowsUnder_mono (r₁ r₂ : ℚ) (h : r₁ ≤ r₂) :
    ∀ ns : List PipeNode, rowsUnder r₁ ns ≤ rowsUnder r₂ ns := by
  intro ns
  induction ns with
  | nil => exact h
  | cons n rest ih => cases n <;> simpa [rowsUnder] using ih

lemma rowsUnder_nonneg (r : ℚ) (h : 0 ≤ r) (ns : List PipeNode)
    (hwf : ∀ n ∈ ns, n.wf) : 0 ≤ rowsUnder r ns := by
  induction ns with
  | nil => exact h
  | cons n rest ih =>
    have hn := hwf n (List.mem_cons_self n rest)
    have hrest := fun m hm => hwf m (List.mem_cons_of_mem n hm)
    cases n <;> simp [rowsUnder, PipeNode.wf] at hn ⊢ <;>
      first | exact ih hrest | exact hn | trivial

/-- C5 (spec-modelled row estimates): for a linear, join-free pipeline —
a `Scan` leaf under any chain of `Filter`, `Proj`, `Order`, `Limit`, `TopN`,
`Agg`, `Window` — the total cost computed by the `CostFn::cost` formulas is
monotone in the leaf's estimated row count, for any `log2` that is (like
`f32::log2`) non-negative and monotone on `[1, ∞)`. -/
theorem pipeline_cost_monotone (log2 : ℚ → ℚ)
    (hl0 : ∀ x : ℚ, 1 ≤ x → 0 ≤ log2 x)
    (hlm : ∀ x y : ℚ, 1 ≤ x → x ≤ y → log2 x ≤ log2 y)
    (s : ScanLeaf) (ns : List PipeNode) (hwf : ∀ n ∈ ns, n.wf)
    (r₁ r₂ : ℚ) (h0 : 0 ≤ r₁) (h12 : r₁ ≤ r₂) :
    pipeCost log2 s r₁ ns ≤ pipeCost log2 s r₂ ns := by
  induction ns with
  | nil =>
    cases s with
    | eqRequiredConst => exact le_refl _
    | eqOtherwise => exact le_refl _
    | plain cols =>
      show (100000 : ℚ) * (r₁ * cols) ≤ 100000 * (r₂ * cols)
      have : (0 : ℚ) ≤ (cols : ℚ) := Nat.cast_nonneg _
      nlinarith
  | cons n rest ih =>
    have hn := hwf n (List.mem_cons_self n rest)
    have hrest : ∀ m ∈ rest, m.wf := fun m hm => hwf m (List.mem_cons_of_mem n hm)
    have hcc := ih hrest
    have hrc : rowsUnder r₁ rest ≤ rowsUnder r₂ rest := rowsUnder_mono r₁ r₂ h12 rest
    have hrc0 : 0 ≤ rowsUnder r₁ rest := rowsUnder_nonneg r₁ h0 rest hrest
    have hrc0' : 0 ≤ rowsUnder r₂ rest := le_trans hrc0 hrc
    cases n with
    | filter e cols =>
      have he : 0 ≤ e := hn
      have hcol : (0 : ℚ) ≤ (cols : ℚ) := Nat.cast_nonneg _
      show e * rowsUnder r₁ rest + rowsUnder r₁ rest * cols + pipeCost log2 s r₁ rest
          ≤ e * rowsUnder r₂ rest + rowsUnder r₂ rest * cols + pipeCost log2 s r₂ rest
      have h1 := mul_le_mul_of_nonneg_left hrc he
      have h2 := mul_le_mul_of_nonneg_right hrc hcol
      linarith
    | proj e cols =>
      have he : 0 ≤ e := hn
      show e * rowsUnder r₁ rest + pipeCost log2 s r₁ rest
          ≤ e * rowsUnder r₂ rest + pipeCost log2 s r₂ rest
      have h1 := mul_le_mul_of_nonneg_left hrc he
      linarith
    | window e cols =>
      have he : 0 ≤ e := hn
      show e * rowsUnder r₁ rest + pipeCost log2 s r₁ rest
          ≤ e * rowsUnder r₂ rest + pipeCost log2 s r₂ rest
      have h1 := mul_le_mul_of_nonneg_left hrc he
      linarith
    | agg e cols =>
      have he : 0 ≤ e := hn
      have hcol : (0 : ℚ) ≤ (cols : ℚ) := Nat.cast_nonneg _
      show e * rowsUnder r₁ rest + rowsUnder r₁ rest * cols + pipeCost log2 s r₁ rest
          ≤ e * rowsUnder r₂ rest + rowsUnder r₂ rest * cols + pipeCost log2 s r₂ rest
      have h1 := mul_le_mul_of_nonneg_left hrc he
      have h2 := mul_le_mul_of_nonneg_right hrc hcol
      linarith
    | order cols =>
      have hcol : (0 : ℚ) ≤ (cols : ℚ) := Nat.cast_nonneg _
      show rowsUnder r₁ rest * log2 (rowsUnder r₁ rest + 1) + rowsUnder r₁ rest * cols
            + pipeCost log2 s r₁ rest
          ≤ rowsUnder r₂ rest * log2 (rowsUnder r₂ rest + 1) + rowsUnder r₂ rest * cols
            + pipeCost log2 s r₂ rest
      have hlog1 : (0 : ℚ) ≤ log2 (rowsUnder r₁ rest + 1) := hl0 _ (by linarith)
      have hlogm : log2 (rowsUnder r₁ rest + 1) ≤ log2 (rowsUnder r₂ rest + 1) :=
        hlm _ _ (by linarith) (by linarith)
      have h1 : rowsUnder r₁ rest * log2 (rowsUnder r₁ rest + 1)
          ≤ rowsUnder r₂ rest * log2 (rowsUnder r₂ rest + 1) :=
        mul_le_mul hrc hlogm hlog1 hrc0'
      have h2 := mul_le_mul_of_nonneg_right hrc hcol
      linarith
    | limit l cols =>
      show l * cols + pipeCost log2 s r₁ rest ≤ l * cols + pipeCost log2 s r₂ rest
      linarith
    | topn l cols =>
      have hl : 0 ≤ l := hn
      show log2 (l + 1) * rowsUnder r₁ rest + l * cols + pipeCost log2 s r₁ rest
          ≤ log2 (l + 1) * rowsUnder r₂ rest + l * cols + pipeCost log2 s r₂ rest
      have hlog1 : (0 : ℚ) ≤ log2 (l + 1) := hl0 _ (by linarith)
      have h1 := mul_le_mul_of_nonneg_left hrc hlog1
      linarith

theorem pipeline_cost_monotone_witness :
    pipeCost (fun x => x - 1) (.plain 2) 1 [.order 3, .filter (1 / 2) 2]
      ≤ pipeCost (fun x => x - 1) (.plain 2) 5 [.order 3, .filter (1 / 2) 2] :=
  pipeline_cost_monotone (fun x => x - 1)
    (fun x hx => by simpa using hx) (fun x y hx hxy => by simpa using hxy)
    (.plain 2) [.order 3, .filter (1 / 2) 2]
    (by intro n hn; fin_cases hn <;> norm_num [PipeNode.wf])
    1 5 (by norm_num) (by norm_num)

/-! ### The optimization loop (`Optimizer::optimize`, `src/src/planner/mod.rs`) -/

/-- `f32::MAX`, the initial value of `best_cost`. -/
def f32Max : ℚ := 2 ^ 128 - 2 ^ 104

/-- One optimization stage as the loop observes it: build an e-graph from
the expression, saturate it with the stage's rules under the given catalog
and config, and extract the minimum-cost expression together with its cost
(`egg::Runner::run` followed by `egg::Extractor::find_best`; both live in
the external `egg` crate and are pure functions of their inputs, with the
catalog, config and rule set baked in here).  `α` stands for `RecExpr`. -/
structure OptStages (α : Type) where
  stage1 : α → ℚ × α
  stage2 : α → ℚ × α

/-- The Stage-1 loop of `Optimizer::optimize`:
`for _ in 0..10 { ...; (cost, expr) = extractor.find_best(roots[0]);
if cost >= best_cost { break; } best_cost = cost; }`.
Note the extraction is assigned to `expr` before the comparison. -/
def stage1Loop {α : Type} (s : OptStages α) : Nat → ℚ → α → α
  | 0, _, expr => expr
  | n + 1, best, expr =>
    let p := s.stage1 expr
    if best ≤ p.1 then p.2
    else stage1Loop s n p.1 p.2

/-- `Optimizer::optimize`: up to ten rounds of Stage 1 with early exit,
then Stage 2 exactly once; its single extraction is returned. -/
def optimize {α : Type} (s : OptStages α) (expr : α) : α :=
  (s.stage2 (stage1Loop s 10 f32Max expr)).2

/-- The number of Stage-1 rounds the loop body actually executes. -/
def stage1Rounds {α : Type} (s : OptStages α) : Nat → ℚ → α → Nat
  | 0, _, _ => 0
  | n + 1, best, expr =>
    let p := s.stage1 expr
    if best ≤ p.1 then 1
    else stage1Rounds s n p.1 p.2 + 1

/-- The expression after `k` Stage-1 rounds, starting from `e`: each round
rebuilds the e-graph from the previous round's extraction and re-extracts. -/
def stage1Seq {α : Type} (s : OptStages α) (e : α) : Nat → α
  | 0 => e
  | k + 1 => (s.stage1 (stage1Seq s e k)).2

/-- The extracted root cost of Stage-1 round `k` (0-indexed). -/
def stage1Cost {α : Type} (s : OptStages α) (e : α) (k : Nat) : ℚ :=
  (s.stage1 (stage1Seq s e k)).1

/-- `best_cost` at the start of round `k`, along a prefix of rounds that all
improved: `f32::MAX` (or the given start) before round 0, afterwards the
previous round's cost. -/
def bestAt {α : Type} (s : OptStages α) (e : α) (best : ℚ) : Nat → ℚ
  | 0 => best
  | i + 1 => stage1Cost s e i

lemma stage1Seq_shift {α : Type} (s : OptStages α) (e : α) (k : Nat) :
    stage1Seq s e (k + 1) = stage1Seq s ((s.stage1 e).2) k := by
  induction k with
  | zero => rfl
  | succ k ih => show (s.stage1 (stage1Seq s e (k + 1))).2 = _; rw [ih]; rfl

lemma stage1Cost_shift {α : Type} (s : OptStages α) (e : α) (k : Nat) :
    stage1Cost s e (k + 1) = stage1Cost s ((s.stage1 e).2) k := by
  unfold stage1Cost
  rw [stage1Seq_shift]

lemma bestAt_shift {α : Type} (s : OptStages α) (e : α) (best : ℚ) (i : Nat) :
    bestAt s ((s.stage1 e).2) (s.stage1 e).1 i = bestAt s e best (i + 1) := by
  cases i with
  | zero => rfl
  | succ j => show stage1Cost s _ j = stage1Cost s e (j + 1); rw [stage1Cost_shift]

/-- If rounds `0..k-1` all strictly improved on the running best and round
`k` fails to, the loop (run with at least `k+1` rounds of budget) returns
round `k`'s extraction. -/
lemma stage1Loop_first_fail {α : Type} (s : OptStages α) :
    ∀ (k n : Nat) (best : ℚ) (e : α), k < n →
      (∀ i, i < k → stage1Cost s e i < bestAt s e best i) →
      bestAt s e best k ≤ stage1Cost s e k →
      stage1Loop s n best e = stage1Seq s e (k + 1) := by
  intro k
  induction k with
  | zero =>
    intro n best e hn _ hfail
    obtain ⟨m, rfl⟩ := Nat.exists_eq_succ_of_ne_zero (Nat.pos_iff_ne_zero.mp hn)
    have hfail' : best ≤ (s.stage1 e).1 := hfail
    show (if best ≤ (s.stage1 e).1 then (s.stage1 e).2
          else stage1Loop s m (s.stage1 e).1 (s.stage1 e).2) = _
    rw [if_pos hfail']
    rfl
  | succ k ih =>
    intro n best e hn himp hfail
    obtain ⟨m, rfl⟩ := Nat.exists_eq_succ_of_ne_zero
      (Nat.pos_iff_ne_zero.mp (Nat.lt_of_le_of_lt (Nat.zero_le _) hn))
    have h0 : (s.stage1 e).1 < best := himp 0 (Nat.succ_pos k)
    show (if best ≤ (s.stage1 e).1 then (s.stage1 e).2
          else stage1Loop s m (s.stage1 e).1 (s.stage1 e).2) = _
    rw [if_neg (not_le.mpr h0)]
    have himp' : ∀ i, i < k →
        stage1Cost s ((s.stage1 e).2) i < bestAt s ((s.stage1 e).2) (s.stage1 e).1 i := by
      intro i hi
      rw [bestAt_shift s e best i, ← stage1Cost_shift]
      exact himp (i + 1) (Nat.succ_lt_succ hi)
    have hfail' : bestAt s ((s.stage1 e).2) (s.stage1 e).1 k
        ≤ stage1Cost s ((s.stage1 e).2) k := by
      rw [bestAt_shift s e best k, ← stage1Cost_shift]
      exact hfail
    rw [ih m (s.stage1 e).1 (s.stage1 e).2 (Nat.lt_of_succ_lt_succ hn) himp' hfail']
    rw [← stage1Seq_shift]

/-- C1: the structure of `Optimizer::optimize`.  Conjuncts: (1) the final
output is the single extraction of Stage 2, run exactly once on Stage 1's
result; (2) Stage 1 executes at most `n` (at the call site, 10) rounds;
(3) a round whose cost strictly improves the running best continues the loop
on that round's extraction with its cost as the new best; (4) the loop
exits at the first round whose cost fails to be strictly below the best
seen so far; (5) the loop's result is the `stage1Rounds`-fold iterate of
extraction, i.e. each round rebuilds from the previous round's extracted
expression. -/
theorem optimize_loop_structure (α : Type) :
    (∀ (s : OptStages α) (e : α),
      optimize s e = (s.stage2 (stage1Loop s 10 f32Max e)).2)
    ∧ (∀ (s : OptStages α) (n : Nat) (best : ℚ) (e : α),
      stage1Rounds s n best e ≤ n)
    ∧ (∀ (s : OptStages α) (n : Nat) (best : ℚ) (e : α),
      (s.stage1 e).1 < best →
        stage1Loop s (n + 1) best e = stage1Loop s n (s.stage1 e).1 (s.stage1 e).2)
    ∧ (∀ (s : OptStages α) (n : Nat) (best : ℚ) (e : α),
      best ≤ (s.stage1 e).1 → stage1Loop s (n + 1) best e = (s.stage1 e).2)
    ∧ (∀ (s : OptStages α) (n : Nat) (best : ℚ) (e : α),
      stage1Loop s n best e = stage1Seq s e (stage1Rounds s n best e)) := by
  refine ⟨fun s e => rfl, ?_, ?_, ?_, ?_⟩
  · intro s n
    induction n with
    | zero => intro best e; exact Nat.le_refl 0
    | succ n ih =>
      intro best e
      show (if best ≤ (s.stage1 e).1 then 1
            else stage1Rounds s n (s.stage1 e).1 (s.stage1 e).2 + 1) ≤ n + 1
      split
      · exact Nat.succ_le_succ (Nat.zero_le n)
      · exact Nat.succ_le_succ (ih _ _)
  · intro s n best e h
    show (if best ≤ (s.stage1 e).1 then (s.stage1 e).2
          else stage1Loop s n (s.stage1 e).1 (s.stage1 e).2) = _
    rw [if_neg (not_le.mpr h)]
  · intro s n best e h
    show (if best ≤ (s.stage1 e).1 then (s.stage1 e).2
          else stage1Loop s n (s.stage1 e).1 (s.stage1 e).2) = _
    rw [if_pos h]
  · intro s n
    induction n with
    | zero => intro best e; rfl
    | succ n ih =>
      intro best e
      show (if best ≤ (s.stage1 e).1 then (s.stage1 e).2
            else stage1Loop s n (s.stage1 e).1 (s.stage1 e).2)
          = stage1Seq s e (stage1Rounds s (n + 1) best e)
      have hr : stage1Rounds s (n + 1) best e
          = if best ≤ (s.stage1 e).1 then 1
            else stage1Rounds s n (s.stage1 e).1 (s.stage1 e).2 + 1 := rfl
      rw [hr]
      split
      · rfl
      · rw [ih (s.stage1 e).1 (s.stage1 e).2, stage1Seq_shift]

/-- A concrete two-stage instance for the witnesses: Stage 1 halves the
cost and expression, Stage 2 increments the expression. -/
def demoStages : OptStages ℚ where
  stage1 := fun e => (e / 2, e / 2)
  stage2 := fun e => (0, e + 1)

theorem optimize_loop_structure_witness :
    optimize demoStages 8 = (demoStages.stage2 (stage1Loop demoStages 10 f32Max 8)).2
    ∧ stage1Rounds demoStages 10 f32Max 8 ≤ 10
    ∧ stage1Loop demoStages 5 8 8
        = stage1Loop demoStages 4 (demoStages.stage1 8).1 (demoStages.stage1 8).2
    ∧ stage1Loop demoStages 5 2 8 = (demoStages.stage1 8).2
    ∧ stage1Loop demoStages 10 f32Max 8
        = stage1Seq demoStages 8 (stage1Rounds demoStages 10 f32Max 8) :=
  ⟨(optimize_loop_structure ℚ).1 demoStages 8,
   (optimize_loop_structure ℚ).2.1 demoStages 10 f32Max 8,
   (optimize_loop_structure ℚ).2.2.1 demoStages 4 8 8 (by norm_num [demoStages]),
   (optimize_loop_structure ℚ).2.2.2.1 demoStages 4 2 8 (by norm_num [demoStages]),
   (optimize_loop_structure ℚ).2.2.2.2 demoStages 10 f32Max 8⟩

/-- C9: when the Stage-1 loop exits early because round `k`'s extracted cost
fails to be strictly below the best seen so far, the expression carried into
Stage 2 is that final non-improving round's extraction (`expr` is assigned
before the comparison), not the last strictly-improving round's. -/
theorem stage1_plateau_round_carried {α : Type} (s : OptStages α) (e : α)
    (k : Nat) (hk : k < 10)
    (himp : ∀ i, i < k → stage1Cost s e i < bestAt s e f32Max i)
    (hfail : bestAt s e f32Max k ≤ stage1Cost s e k) :
    optimize s e = (s.stage2 (stage1Seq s e (k + 1))).2 := by
  unfold optimize
  rw [stage1Loop_first_fail s k 10 f32Max e hk himp hfail]

/-- A Stage-1 whose extractions all cost `5`: round 0 improves on
`f32::MAX`, round 1 plateaus, so the loop breaks at round 1 and carries
round 1's extraction (here `0 + 1 + 1 = 2`) into Stage 2. -/
def plateauStages : OptStages ℚ where
  stage1 := fun e => (5, e + 1)
  stage2 := fun e => (0, e)

theorem stage1_plateau_round_carried_witness :
    optimize plateauStages 0 = (plateauStages.stage2 (stage1Seq plateauStages 0 2)).2 :=
  stage1_plateau_round_carried plateauStages 0 1 (by norm_num)
    (fun i hi => by
      have h0 : i = 0 := Nat.lt_one_iff.mp hi
      subst h0
      show (5 : ℚ) < f32Max
      norm_num [f32Max])
    (by show (5 : ℚ) ≤ 5; norm_num)

/-- C6: `optimize` is deterministic — two invocations on the same input
expression with the same stage functions (determined by the catalog snapshot
and configuration) produce identical outputs; the embedding is a total pure
function, so an invocation cannot fail differently either. -/
theorem optimize_deterministic {α : Type} (s₁ s₂ : OptStages α) (e₁ e₂ : α)
    (hs : s₁ = s₂) (he : e₁ = e₂) : optimize s₁ e₁ = optimize s₂ e₂ := by
  rw [hs, he]

theorem optimize_deterministic_witness :
    optimize demoStages 8 = optimize demoStages 8 :=
  optimize_deterministic demoStages demoStages 8 8 rfl rfl

/-! ### The binder: `bind_create_table` (`src/src/binder/create_table.rs`) -/

/-- `sqlparser::ast::Ident` (external crate): an identifier token. -/
structure Ident where
  value : String
deriving DecidableEq, Repr

/-- ASCII lowercasing of one character; models Rust's lowercasing on the
(ASCII) identifiers these checks compare. -/
def asciiLowerChar (c : Char) : Char :=
  if 65 ≤ c.toNat ∧ c.toNat ≤ 90 then Char.ofNat (c.toNat + 32) else c

/-- `str::to_lowercase`. -/
def asciiLower (s : String) : String :=
  String.mk (s.data.map asciiLowerChar)

/-- `str::eq_ignore_ascii_case`. -/
def eqIgnoreAsciiCase (a b : String) : Bool :=
  asciiLower a == asciiLower b

/-- `sqlparser::ast::ColumnOption`, restricted to the variants
`From<&ColumnDef> for ColumnCatalog` handles (any other variant hits the
source's `todo!("column options")`). -/
inductive ColumnOption
  | Null
  | NotNull
  | Unique (is_primary : Bool)
  | Comment (text : String)
deriving DecidableEq, Repr

/-- `sqlparser::ast::ColumnOptionDef`, with the optional constraint name
dropped (the binder never reads it). -/
structure ColumnOptionDef where
  option : ColumnOption
deriving DecidableEq, Repr

/-- `sqlparser::ast::ColumnDef` (the fields the binder reads). -/
structure ColumnDef where
  name : Ident
  data_type : DataTypeKind
  options : List ColumnOptionDef
deriving DecidableEq, Repr

/-- `sqlparser::ast::TableConstraint` (the fields the binder reads;
`Other` stands for the constraint kinds the binder skips). -/
inductive TableConstraint
  | Unique (is_primary : Bool) (columns : List Ident)
  | Other
deriving DecidableEq, Repr

/-- `crate::binder::BindError` (the variants `bind_create_table` raises). -/
inductive BindError
  | InvalidSchema (name : String)
  | DuplicatedTable (name : String)
  | DuplicatedColumn (name : String)
  | NotSupportedTSQL
  | InvalidColumn (name : String)
deriving DecidableEq, Repr

/-- `From<&ColumnDef> for ColumnCatalog`: fold the column options into the
(nullable, primary, required) flags, lower-case the name, id 0 (the binder
re-assigns ids). -/
def ColumnCatalog.from_column_def (cdef : ColumnDef) : ColumnCatalog :=
  let flags := cdef.options.foldl
    (fun (acc : Bool × Bool × Bool) opt =>
      match opt.option with
      | .Null => (true, acc.2.1, acc.2.2)
      | .NotNull => (false, acc.2.1, acc.2.2)
      | .Unique p => (acc.1, p, acc.2.2)
      | .Comment t => (acc.1, acc.2.1, t == ("required")))
    (true, false, false)
  { id := 0,
    desc := { datatype := { kind := cdef.data_type, nullable := flags.1 },
              name := asciiLower cdef.name.value,
              is_primary := flags.2.1,
              is_required := flags.2.2 } }

/-- `Binder::ordered_pks_from_columns`: the primary-key column ids
(= indices into the column list) in declaration order, one entry per
`PRIMARY KEY` column option. -/
def Binder.ordered_pks_from_columns (columns : List ColumnDef) : List ColumnId :=
  (columns.enum).flatMap fun ic =>
    ic.2.options.filterMap fun od =>
      match od.option with
      | .Unique true => some ic.1
      | _ => none

/-- `Binder::pks_name_from_constraints`: the lower-cased primary-key column
names, in declaration order, from `PRIMARY KEY(c1, c2, ..)` constraints. -/
def Binder.pks_name_from_constraints (constraints : List TableConstraint) : List String :=
  constraints.foldl
    (fun acc c =>
      match c with
      | .Unique true cols => acc ++ cols.map (fun i => asciiLower i.value)
      | _ => acc)
    []

/-- The duplicate-column scan of `bind_create_table`: insert each column's
lower-cased name into a set, returning the first name already present. -/
def firstDupColumn : List ColumnDef → List String → Option String
  | [], _ => none
  | c :: cs, seen =>
    if asciiLower c.name.value ∈ seen then some c.name.value
    else firstDupColumn cs (asciiLower c.name.value :: seen)

/-- The `for name in &pks_name_from_constraints` validation loop: every
constraint name must be a declared column name. -/
def checkPkNames (seen : List String) : List String → Except BindError Unit
  | [] => .ok ()
  | n :: rest =>
    if n ∈ seen then checkPkNames seen rest
    else .error (.InvalidColumn n)

/-- One iteration of `columns[index].set_primary(true);
columns[index].set_nullable(false)` (in the success path the index is
always in bounds; out of bounds Rust would panic). -/
def setPrimaryNotNull (cs : List ColumnCatalog) (i : Nat) : List ColumnCatalog :=
  match cs.get? i with
  | none => cs
  | some c => cs.set i ((c.set_primary true).set_nullable false)

/-- The `for &index in &ordered_pk_ids` loop. -/
def applyPks (cs : List ColumnCatalog) (pks : List ColumnId) : List ColumnCatalog :=
  pks.foldl setPrimaryNotNull cs

/-- The slice of one schema's catalog that `bind_create_table` reads
(the catalog implementation lives outside `src/`). -/
structure SchemaCatalog where
  id : Nat
  tables : List String
deriving DecidableEq, Repr

/-- The root catalog as a name-to-schema lookup. -/
structure RootCatalogView where
  schemas : String → Option SchemaCatalog

/-- `Binder::bind_create_table`, from the schema lookup on
(`lower_case_name`/`split_name`, which produce `schema_name` and
`table_name`, live in `binder/mod.rs` outside `src/`).  Instead of adding
the `CreateTable` node to the e-graph, the embedding returns its payload;
an error return adds nothing. -/
def Binder.bind_create_table (catalog : RootCatalogView)
    (schema_name table_name : String)
    (columns : List ColumnDef) (constraints : List TableConstraint) :
    Except BindError CreateTable :=
  match catalog.schemas schema_name with
  | none => .error (.InvalidSchema schema_name)
  | some schema =>
    if table_name ∈ schema.tables then .error (.DuplicatedTable table_name)
    else
      match firstDupColumn columns [] with
      | some n => .error (.DuplicatedColumn n)
      | none =>
        let seen := columns.map fun c => asciiLower c.name.value
        let ordered_pk_ids := Binder.ordered_pks_from_columns columns
        let has_pk_from_column := !ordered_pk_ids.isEmpty
        if 1 < ordered_pk_ids.length then .error .NotSupportedTSQL
        else
          let pks_name := Binder.pks_name_from_constraints constraints
          if has_pk_from_column && !pks_name.isEmpty then .error .NotSupportedTSQL
          else
            let resolved : Except BindError (List ColumnId) :=
              if !has_pk_from_column then
                match checkPkNames seen pks_name with
                | .error e => .error e
                | .ok _ => .ok (pks_name.map fun n =>
                    columns.findIdx fun c => eqIgnoreAsciiCase c.name.value n)
              else .ok ordered_pk_ids
            match resolved with
            | .error e => .error e
            | .ok pk_ids =>
              let cols := columns.enum.map fun ic =>
                (ColumnCatalog.from_column_def ic.2).set_id ic.1
              .ok { schema_id := schema.id,
                    table_name := table_name,
                    columns := applyPks cols pk_ids,
                    ordered_pk_ids := pk_ids }

/-! ### Lemmas about the binder helpers -/

lemma firstDupColumn_none_spec :
    ∀ (columns : List ColumnDef) (seen : List String),
      firstDupColumn columns seen = none →
      (columns.map fun c => asciiLower c.name.value).Nodup
      ∧ ∀ s ∈ seen, s ∉ columns.map fun c => asciiLower c.name.value := by
  intro columns
  induction columns with
  | nil => intro seen _; exact ⟨List.nodup_nil, by simp⟩
  | cons c cs ih =>
    intro seen h
    rw [firstDupColumn] at h
    by_cases hmem : asciiLower c.name.value ∈ seen
    · rw [if_pos hmem] at h; cases h
    · rw [if_neg hmem] at h
      obtain ⟨h1, h2⟩ := ih _ h
      refine ⟨?_, ?_⟩
      · simp only [List.map_cons, List.nodup_cons]
        exact ⟨h2 _ (List.mem_cons_self _ _), h1⟩
      · intro s hs
        simp only [List.map_cons, List.mem_cons, not_or]
        refine ⟨?_, h2 s (List.mem_cons_of_mem _ hs)⟩
        intro heq
        exact hmem (heq ▸ hs)

lemma firstDupColumn_eq_none :
    ∀ (columns : List ColumnDef) (seen : List String),
      (columns.map fun c => asciiLower c.name.value).Nodup →
      (∀ s ∈ seen, s ∉ columns.map fun c => asciiLower c.name.value) →
      firstDupColumn columns seen = none := by
  intro columns
  induction columns with
  | nil => intro seen _ _; rfl
  | cons c cs ih =>
    intro seen hnd hdis
    rw [firstDupColumn]
    have hni : asciiLower c.name.value ∉ seen := by
      intro hmem
      exact hdis _ hmem (by simp)
    rw [if_neg hni]
    simp only [List.map_cons, List.nodup_cons] at hnd
    apply ih _ hnd.2
    intro s hs
    rcases List.mem_cons.mp hs with rfl | hs'
    · intro hmem
      exact hnd.1 hmem
    · intro hmem
      exact hdis s hs' (List.mem_cons_of_mem _ hmem)

lemma mem_ordered_pks (columns : List ColumnDef) (i : Nat) (ci : ColumnDef)
    (hget : columns.get? i = some ci) (o : ColumnOptionDef) (ho : o ∈ ci.options)
    (hp : o.option = .Unique true) :
    i ∈ Binder.ordered_pks_from_columns columns := by
  unfold Binder.ordered_pks_from_columns
  rw [List.mem_flatMap]
  refine ⟨(i, ci), List.mk_mem_enum_iff_get?.mpr hget, ?_⟩
  rw [List.mem_filterMap]
  exact ⟨o, ho, by rw [hp]⟩

lemma mem_ordered_pks_lt (columns : List ColumnDef) (i : Nat)
    (h : i ∈ Binder.ordered_pks_from_columns columns) : i < columns.length := by
  unfold Binder.ordered_pks_from_columns at h
  rw [List.mem_flatMap] at h
  obtain ⟨ic, hic, hi⟩ := h
  rw [List.mem_filterMap] at hi
  obtain ⟨o, _, ho⟩ := hi
  have h1 : ic.1 = i := by
    cases hop : o.option with
    | Unique b =>
      cases b with
      | false => rw [hop] at ho; cases ho
      | true => rw [hop] at ho; exact Option.some.inj ho
    | Null => rw [hop] at ho; cases ho
    | NotNull => rw [hop] at ho; cases ho
    | Comment t => rw [hop] at ho; cases ho
  have h2 : columns.get? ic.1 = some ic.2 := List.mem_enum_iff_get?.mp hic
  rw [h1] at h2
  exact (List.get?_eq_some.mp h2).1

lemma one_lt_length_of_two_mem {l : List Nat} {i j : Nat} (hij : i ≠ j)
    (hi : i ∈ l) (hj : j ∈ l) : 1 < l.length := by
  match l with
  | [] => cases hi
  | [a] =>
    simp only [List.mem_singleton] at hi hj
    exact absurd (hi.trans hj.symm) hij
  | a :: b :: t =>
    simp only [List.length_cons]
    omega

lemma checkPkNames_ok_spec (seen : List String) :
    ∀ names, checkPkNames seen names = .ok () → ∀ n ∈ names, n ∈ seen := by
  intro names
  induction names with
  | nil => intro _ n hn; cases hn
  | cons m rest ih =>
    intro h n hn
    rw [checkPkNames] at h
    by_cases hm : m ∈ seen
    · rw [if_pos hm] at h
      rcases List.mem_cons.mp hn with rfl | hn'
      · exact hm
      · exact ih h n hn'
    · rw [if_neg hm] at h; cases h

lemma asciiLowerChar_idem (c : Char) :
    asciiLowerChar (asciiLowerChar c) = asciiLowerChar c := by
  by_cases h : 65 ≤ c.toNat ∧ c.toNat ≤ 90
  · have h1 : asciiLowerChar c = Char.ofNat (c.toNat + 32) := by
      unfold asciiLowerChar; rw [if_pos h]
    have ht : (Char.ofNat (c.toNat + 32)).toNat = c.toNat + 32 := by
      have hv : (c.toNat + 32).isValidChar := Or.inl (by omega)
      simp only [Char.ofNat, hv, dif_pos]
      simp [Char.ofNatAux, Char.toNat, UInt32.toNat, UInt32.ofNat',
        Nat.mod_eq_of_lt (by omega : c.toNat + 32 < 4294967296)]
    rw [h1]
    unfold asciiLowerChar
    rw [if_neg (by rw [ht]; omega)]
  · have h1 : asciiLowerChar c = c := by
      unfold asciiLowerChar; rw [if_neg h]
    rw [h1]
    exact h1

lemma asciiLower_idem (s : String) : asciiLower (asciiLower s) = asciiLower s := by
  show String.mk (((s.data.map asciiLowerChar)).map asciiLowerChar) = _
  rw [List.map_map]
  have h : asciiLowerChar ∘ asciiLowerChar = asciiLowerChar := funext asciiLowerChar_idem
  rw [h]
  rfl

lemma findIdx_resolves (columns : List ColumnDef) (n : String)
    (hn : n ∈ columns.map fun c => asciiLower c.name.value) :
    (columns.findIdx fun c => eqIgnoreAsciiCase c.name.value n) < columns.length := by
  apply List.findIdx_lt_length_of_exists
  obtain ⟨c, hc, hlow⟩ := List.mem_map.mp hn
  refine ⟨c, hc, ?_⟩
  unfold eqIgnoreAsciiCase
  rw [← hlow, asciiLower_idem]
  exact beq_self_eq_true _

lemma setPrimaryNotNull_length (cs : List ColumnCatalog) (i : Nat) :
    (setPrimaryNotNull cs i).length = cs.length := by
  unfold setPrimaryNotNull
  cases h : cs.get? i with
  | none => rfl
  | some c => simp

lemma setPrimaryNotNull_id (cs : List ColumnCatalog) (i : Nat)
    (hid : ∀ k c, cs.get? k = some c → c.id = k) :
    ∀ k c, (setPrimaryNotNull cs i).get? k = some c → c.id = k := by
  intro k c h
  unfold setPrimaryNotNull at h
  cases hg : cs.get? i with
  | none => rw [hg] at h; exact hid k c h
  | some c0 =>
    rw [hg] at h
    by_cases hik : i = k
    · subst hik
      rw [List.get?_set_eq, hg] at h
      cases h
      exact hid i c0 hg
    · rw [List.get?_set_ne _ _ hik] at h
      exact hid k c h

lemma setPrimaryNotNull_establishes (cs : List ColumnCatalog) (i : Nat)
    (hi : i < cs.length) :
    ∃ c, (setPrimaryNotNull cs i).get? i = some c
      ∧ c.is_primary = true ∧ c.is_nullable = false := by
  have hg : cs.get? i = some (cs.get ⟨i, hi⟩) := List.get?_eq_get hi
  refine ⟨((cs.get ⟨i, hi⟩).set_primary true).set_nullable false, ?_, rfl, rfl⟩
  unfold setPrimaryNotNull
  rw [hg, List.get?_set_eq, hg]
  rfl

lemma setPrimaryNotNull_preserves (cs : List ColumnCatalog) (j i : Nat)
    (h : ∃ c, cs.get? i = some c ∧ c.is_primary = true ∧ c.is_nullable = false) :
    ∃ c, (setPrimaryNotNull cs j).get? i = some c
      ∧ c.is_primary = true ∧ c.is_nullable = false := by
  obtain ⟨c, hg, hp, hn⟩ := h
  unfold setPrimaryNotNull
  cases hgj : cs.get? j with
  | none => exact ⟨c, hg, hp, hn⟩
  | some cj =>
    by_cases hij : j = i
    · subst hij
      refine ⟨(cj.set_primary true).set_nullable false, ?_, rfl, rfl⟩
      rw [List.get?_set_eq, hgj]
      rfl
    · rw [List.get?_set_ne _ _ hij]
      exact ⟨c, hg, hp, hn⟩

lemma applyPks_flag (pks : List ColumnId) :
    ∀ (cs : List ColumnCatalog) (i : Nat),
      ((i ∈ pks ∧ i < cs.length)
        ∨ (∃ c, cs.get? i = some c ∧ c.is_primary = true ∧ c.is_nullable = false)) →
      ∃ c, (applyPks cs pks).get? i = some c
        ∧ c.is_primary = true ∧ c.is_nullable = false := by
  induction pks with
  | nil =>
    intro cs i h
    rcases h with ⟨hmem, _⟩ | h
    · cases hmem
    · exact h
  | cons p ps ih =>
    intro cs i h
    show ∃ c, (applyPks (setPrimaryNotNull cs p) ps).get? i = some c ∧ _
    apply ih
    rcases h with ⟨hmem, hlen⟩ | hprop
    · rcases List.mem_cons.mp hmem with rfl | hmem'
      · right; exact setPrimaryNotNull_establishes cs i hlen
      · left; exact ⟨hmem', by rw [setPrimaryNotNull_length]; exact hlen⟩
    · right; exact setPrimaryNotNull_preserves cs p i hprop

lemma applyPks_id (pks : List ColumnId) :
    ∀ cs, (∀ k c, cs.get? k = some c → c.id = k) →
      ∀ k c, (applyPks cs pks).get? k = some c → c.id = k := by
  induction pks with
  | nil => intro cs h; exact h
  | cons p ps ih =>
    intro cs h
    exact ih _ (setPrimaryNotNull_id cs p h)

lemma enum_map_set_id (columns : List ColumnDef) (k : Nat) (c : ColumnCatalog)
    (h : (columns.enum.map fun ic =>
        (ColumnCatalog.from_column_def ic.2).set_id ic.1).get? k = some c) :
    c.id = k := by
  rw [List.get?_map, List.get?_enum] at h
  cases hg : columns.get? k with
  | none => rw [hg] at h; cases h
  | some cd =>
    rw [hg] at h
    cases h
    rfl

lemma enum_map_length (columns : List ColumnDef) :
    (columns.enum.map fun ic =>
        (ColumnCatalog.from_column_def ic.2).set_id ic.1).length = columns.length := by
  rw [List.length_map, List.enum_length]

/-- C8: `bind_create_table` rejects, with an error (returning before any
`CreateTable` node is constructed), (a) a definition in which two columns
share a lower-cased name, (b) one in which more than one column declares
`PRIMARY KEY` among its column options, and (c) one in which primary keys
come both from column options and from a table-level constraint. -/
theorem bind_create_table_rejects
    (catalog : RootCatalogView) (sn tn : String)
    (columns : List ColumnDef) (constraints : List TableConstraint)
    (schema : SchemaCatalog) (hs : catalog.schemas sn = some schema)
    (ht : tn ∉ schema.tables) :
    (¬ (columns.map fun c => asciiLower c.name.value).Nodup →
      ∃ n, Binder.bind_create_table catalog sn tn columns constraints
        = .error (.DuplicatedColumn n))
    ∧ ((columns.map fun c => asciiLower c.name.value).Nodup →
      ∀ i j ci cj, i ≠ j → columns.get? i = some ci → columns.get? j = some cj →
        (∃ o ∈ ci.options, o.option = .Unique true) →
        (∃ o ∈ cj.options, o.option = .Unique true) →
        Binder.bind_create_table catalog sn tn columns constraints
          = .error .NotSupportedTSQL)
    ∧ ((columns.map fun c => asciiLower c.name.value).Nodup →
      Binder.ordered_pks_from_columns columns ≠ [] →
      Binder.pks_name_from_constraints constraints ≠ [] →
      Binder.bind_create_table catalog sn tn columns constraints
        = .error .NotSupportedTSQL) := by
  refine ⟨?_, ?_, ?_⟩
  · intro hdup
    have hsome : (firstDupColumn columns []).isSome := by
      cases hfd : firstDupColumn columns [] with
      | none => exact absurd (firstDupColumn_none_spec columns [] hfd).1 hdup
      | some n => rfl
    obtain ⟨n, hn⟩ := Option.isSome_iff_exists.mp hsome
    refine ⟨n, ?_⟩
    unfold Binder.bind_create_table
    simp only [hs, if_neg ht, hn]
  · intro hnd i j ci cj hij hgi hgj ⟨oi, hoi, hpi⟩ ⟨oj, hoj, hpj⟩
    have hfd : firstDupColumn columns [] = none :=
      firstDupColumn_eq_none columns [] hnd (by simp)
    have hlen : 1 < (Binder.ordered_pks_from_columns columns).length :=
      one_lt_length_of_two_mem hij
        (mem_ordered_pks columns i ci hgi oi hoi hpi)
        (mem_ordered_pks columns j cj hgj oj hoj hpj)
    unfold Binder.bind_create_table
    simp only [hs, if_neg ht, hfd, if_pos hlen]
  · intro hnd hpkc hpkn
    have hfd : firstDupColumn columns [] = none :=
      firstDupColumn_eq_none columns [] hnd (by simp)
    unfold Binder.bind_create_table
    simp only [hs, if_neg ht, hfd]
    have he1 : (Binder.ordered_pks_from_columns columns).isEmpty = false := by
      cases h : Binder.ordered_pks_from_columns columns with
      | nil => exact absurd h hpkc
      | cons a l => rfl
    have he2 : (Binder.pks_name_from_constraints constraints).isEmpty = false := by
      cases h : Binder.pks_name_from_constraints constraints with
      | nil => exact absurd h hpkn
      | cons a l => rfl
    by_cases hlen : 1 < (Binder.ordered_pks_from_columns columns).length
    · simp only [if_pos hlen]
    · simp only [if_neg hlen, he1, he2, Bool.not_false, Bool.and_self, if_true]

/-- A one-schema catalog for the binder witnesses. -/
def demoCatalog : RootCatalogView where
  schemas := fun s =>
    if s = ("postgres") then some { id := 0, tables := [("t0")] } else none

/-- Two columns that share a (lower-cased) name. -/
def dupCols : List ColumnDef :=
  [{ name := { value := ("a") }, data_type := .Int32, options := [] },
   { name := { value := ("a") }, data_type := .Int32, options := [] }]

/-- Two distinct columns that both declare `PRIMARY KEY` in their options. -/
def twoPkCols : List ColumnDef :=
  [{ name := { value := ("a") }, data_type := .Int32,
     options := [{ option := .Unique true }] },
   { name := { value := ("b") }, data_type := .Int32,
     options := [{ option := .Unique true }] }]

/-- One column declaring `PRIMARY KEY` in its options. -/
def onePkCol : List ColumnDef :=
  [{ name := { value := ("a") }, data_type := .Int32,
     options := [{ option := .Unique true }] }]

theorem bind_create_table_rejects_witness :
    (∃ n, Binder.bind_create_table demoCatalog ("postgres") ("t") dupCols []
      = .error (.DuplicatedColumn n))
    ∧ Binder.bind_create_table demoCatalog ("postgres") ("t") twoPkCols []
      = .error .NotSupportedTSQL
    ∧ Binder.bind_create_table demoCatalog ("postgres") ("t") onePkCol
        [.Unique true [{ value := ("a") }]]
      = .error .NotSupportedTSQL :=
  ⟨(bind_create_table_rejects demoCatalog ("postgres") ("t") dupCols []
      { id := 0, tables := [("t0")] } rfl (by decide)).1 (by decide),
   (bind_create_table_rejects demoCatalog ("postgres") ("t") twoPkCols []
      { id := 0, tables := [("t0")] } rfl (by decide)).2.1 (by decide)
      0 1 twoPkCols[0] twoPkCols[1] (by decide) rfl rfl
      ⟨{ option := .Unique true }, List.mem_singleton_self _, rfl⟩
      ⟨{ option := .Unique true }, List.mem_singleton_self _, rfl⟩,
   (bind_create_table_rejects demoCatalog ("postgres") ("t") onePkCol
      [.Unique true [{ value := ("a") }]]
      { id := 0, tables := [("t0")] } rfl (by decide)).2.2 (by decide)
      (by decide) (by decide)⟩

/-- C10: after a successful `bind_create_table`, every id in
`ordered_pk_ids` indexes a column whose `is_primary` is true and whose
`is_nullable` is false, and every column's assigned id equals its position
in the resulting column list. -/
theorem bind_create_table_pk_invariant
    (catalog : RootCatalogView) (sn tn : String)
    (columns : List ColumnDef) (constraints : List TableConstraint)
    (ct : CreateTable)
    (h : Binder.bind_create_table catalog sn tn columns constraints = .ok ct) :
    (∀ i ∈ ct.ordered_pk_ids, ∃ c, ct.columns.get? i = some c
      ∧ c.is_primary = true ∧ c.is_nullable = false)
    ∧ (∀ k c, ct.columns.get? k = some c → c.id = k) := by
  unfold Binder.bind_create_table at h
  cases hsc : catalog.schemas sn with
  | none => simp only [hsc] at h; exact Except.noConfusion h
  | some schema =>
  simp only [hsc] at h
  by_cases htm : tn ∈ schema.tables
  · simp only [if_pos htm] at h; exact Except.noConfusion h
  · simp only [if_neg htm] at h
    cases hfd : firstDupColumn columns [] with
    | some n => simp only [hfd] at h; exact Except.noConfusion h
    | none =>
    simp only [hfd] at h
    by_cases hlen : 1 < (Binder.ordered_pks_from_columns columns).length
    · simp only [if_pos hlen] at h; exact Except.noConfusion h
    · simp only [if_neg hlen] at h
      by_cases hb : (!(Binder.ordered_pks_from_columns columns).isEmpty
          && !(Binder.pks_name_from_constraints constraints).isEmpty) = true
      · simp only [if_pos hb] at h; exact Except.noConfusion h
      · simp only [if_neg hb, Bool.not_not] at h
        by_cases hpe : (Binder.ordered_pks_from_columns columns).isEmpty = true
        · simp only [if_pos hpe] at h
          cases hck : checkPkNames (columns.map fun c => asciiLower c.name.value)
              (Binder.pks_name_from_constraints constraints) with
          | error e => simp only [hck] at h; exact Except.noConfusion h
          | ok u =>
            simp only [hck] at h
            injection h with h'
            subst h'
            refine ⟨?_, ?_⟩
            · intro i hi
              apply applyPks_flag
              left
              refine ⟨hi, ?_⟩
              rw [enum_map_length]
              obtain ⟨n, hn, hidx⟩ := List.mem_map.mp hi
              have hseen := checkPkNames_ok_spec _ _ hck n hn
              rw [← hidx]
              exact findIdx_resolves columns n hseen
            · exact applyPks_id _ _ (fun k c => enum_map_set_id columns k c)
        · simp only [if_neg hpe] at h
          injection h with h'
          subst h'
          refine ⟨?_, ?_⟩
          · intro i hi
            apply applyPks_flag
            left
            refine ⟨hi, ?_⟩
            rw [enum_map_length]
            exact mem_ordered_pks_lt columns i hi
          · exact applyPks_id _ _ (fun k c => enum_map_set_id columns k c)

/-- The `CreateTable` payload produced by binding `onePkCol` in the demo
catalog: column 0 is flagged primary and non-nullable, ids match positions. -/
def pkResult : CreateTable where
  schema_id := 0
  table_name := ("t")
  columns :=
    [{ id := 0,
       desc := { datatype := { kind := .Int32, nullable := false },
                 name := ("a"), is_primary := true, is_required := false } }]
  ordered_pk_ids := [0]

theorem bind_create_table_pk_invariant_witness :
    (∀ i ∈ pkResult.ordered_pk_ids, ∃ c, pkResult.columns.get? i = some c
      ∧ c.is_primary = true ∧ c.is_nullable = false)
    ∧ (∀ k c, pkResult.columns.get? k = some c → c.id = k) :=
  bind_create_table_pk_invariant demoCatalog ("postgres") ("t") onePkCol []
    pkResult rfl

end RisingLight
